import Mathlib

/-!
Shallow embedding of the SQL safety gate of the text_to_sql repository
(`src/text2sql/services/sql_sanitizer.py`, `src/text2sql/services/gemini_client.py`,
`src/text2sql/views.py`).

Python strings are embedded as `List Char`; the regular-expression scans of the
sanitizer (`re.search` / `re.match` with `re.IGNORECASE` and `\b` word
boundaries) are embedded as executable character-list scanners.  The inputs the
gate handles are ASCII SQL text, so Python's `\s`, `\w`, `\d`, `str.lower` are
embedded at their ASCII meaning.
-/

namespace TextToSql

/-- Python `\s` (ASCII): space, tab, newline, carriage return, vertical tab, form feed. -/
def isSpaceChar (c : Char) : Bool :=
  c = ' ' || c = '\t' || c = '\n' || c = '\r' || c.toNat = 11 || c.toNat = 12

/-- Python `\w` (ASCII): letters, digits, underscore. -/
def isWordChar (c : Char) : Bool :=
  c.isAlphanum || c = '_'

/-- Left part of Python `str.strip()`. -/
def lstrip (s : List Char) : List Char := s.dropWhile isSpaceChar

/-- Right part of Python `str.strip()`, i.e. `str.rstrip()`. -/
def rstripChars (s : List Char) : List Char :=
  (s.reverse.dropWhile isSpaceChar).reverse

/-- Python `str.strip()`: drop whitespace from both ends. -/
def stripChars (s : List Char) : List Char := rstripChars (lstrip s)

/-- Case-insensitive literal match of `w` against the front of `s`
(the `re.IGNORECASE` matching of a literal word); returns the rest of `s`. -/
def matchCI : List Char → List Char → Option (List Char)
  | [], s => some s
  | _ :: _, [] => none
  | a :: w, b :: s => if a.toLower = b.toLower then matchCI w s else none

/-- `\b` before a word character: satisfied at the start of the string or
after a non-word character. -/
def boundaryOk : Option Char → Bool
  | none => true
  | some c => !(isWordChar c)

/-- The tail of the regex `w\b` at the current position: `w` matches
case-insensitively and is followed by a non-word character or the end. -/
def wordTail (w s : List Char) : Bool :=
  match matchCI w s with
  | some [] => true
  | some (c :: _) => !(isWordChar c)
  | none => false

/-- `re.search` driver: try `tm` at every position, recording the previous
character so that a leading `\b` can be checked. -/
def scanBoundary (tm : List Char → Bool) : Option Char → List Char → Bool
  | prev, [] => boundaryOk prev && tm []
  | prev, c :: rest => (boundaryOk prev && tm (c :: rest)) || scanBoundary tm (some c) rest

/-- `re.search(r"\b<w>\b", s, re.IGNORECASE) is not None` for a word `w`
made of word characters. -/
def containsWordCI (w s : List Char) : Bool := scanBoundary (wordTail w) none s

/-- The tail of `LIMIT\s+\d+\b` at the current position
(`LIMIT_RE = re.compile(r"\bLIMIT\s+\d+\b", re.IGNORECASE)`). -/
def limitTail (s : List Char) : Bool :=
  match matchCI ['L', 'I', 'M', 'I', 'T'] s with
  | none => false
  | some [] => false
  | some (c :: rest) =>
    if isSpaceChar c then
      match rest.dropWhile isSpaceChar with
      | [] => false
      | d :: r3 =>
        d.isDigit &&
          (match r3.dropWhile Char.isDigit with
           | [] => true
           | e :: _ => !(isWordChar e))
    else false

/-- `LIMIT_RE.search(s) is not None`. -/
def hasLimit (s : List Char) : Bool := scanBoundary limitTail none s

/-- `SELECT_RE = re.compile(r"^\s*(\(*\s*SELECT\b)", re.IGNORECASE)`;
`SELECT_RE.match(s) is not None`. -/
def selectMatch (s : List Char) : Bool :=
  wordTail ['S', 'E', 'L', 'E', 'C', 'T']
    (((s.dropWhile isSpaceChar).dropWhile (fun c => c = '(')).dropWhile isSpaceChar)

/-- `re.match(r"^\s*WITH\b", s, re.IGNORECASE) is not None`. -/
def withMatch (s : List Char) : Bool :=
  wordTail ['W', 'I', 'T', 'H'] (s.dropWhile isSpaceChar)

/-- `BLOCKED_TOKENS` of `sql_sanitizer.py`, each pattern `\bKW\b` represented
by its keyword. -/
def BLOCKED_TOKENS : List (List Char) :=
  [String.toList "INSERT", String.toList "UPDATE", String.toList "DELETE",
   String.toList "DROP", String.toList "CREATE", String.toList "ALTER",
   String.toList "TRUNCATE", String.toList "REVOKE", String.toList "GRANT",
   String.toList "VACUUM", String.toList "ANALYZE", String.toList "LOCK",
   String.toList "SET", String.toList "SHOW", String.toList "COMMENT"]

/-- `SYSTEM_TABLES` of `sql_sanitizer.py`. -/
def SYSTEM_TABLES : List (List Char) :=
  [String.toList "pg_catalog", String.toList "information_schema"]

/-- The distinct `SQLSanitizerError` messages of `basic_sanitize_and_enforce`,
as an enumeration of rejection reasons; `blockedKeyword` carries the keyword of
the matched `\b...\b` pattern. -/
inductive Reason where
  | emptyInput
  | multipleStatements
  | systemCatalog
  | blockedKeyword (tok : List Char)
  | notASelect
  deriving DecidableEq, Repr

/-- Decimal rendering of a natural number, digit-accumulator form with
explicit fuel (the fuel is an upper bound on the digit count, so it is
never exhausted when called with fuel `n`). -/
def natDecimalCore : Nat → Nat → List Char → List Char
  | 0, _, acc => acc
  | fuel + 1, n, acc =>
    if n = 0 then acc
    else natDecimalCore fuel (n / 10) (Nat.digitChar (n % 10) :: acc)

/-- Decimal rendering of a natural number, `str(n)` in Python
(the f-string `f"{max_rows}"` for a non-negative int). -/
def natDecimal (n : Nat) : List Char :=
  if n = 0 then ['0'] else natDecimalCore n n []

/-- The characters `" LIMIT "` inserted by the f-string
`f"{cleaned.rstrip()} LIMIT {max_rows}"`. -/
def limitSep : List Char := [' ', 'L', 'I', 'M', 'I', 'T', ' ']

/-- `basic_sanitize_and_enforce` of `sql_sanitizer.py`, with the raised
`SQLSanitizerError`s embedded as `Except.error` of the corresponding reason. -/
def basic_sanitize_and_enforce (sql : List Char) (max_rows : Nat) : Except Reason (List Char) :=
  if sql = [] ∨ stripChars sql = [] then
    .error .emptyInput
  else if (stripChars sql).any (fun c => c = ';') then
    .error .multipleStatements
  else
    match SYSTEM_TABLES.find? (fun t => containsWordCI t (stripChars sql)) with
    | some _ => .error .systemCatalog
    | none =>
      match BLOCKED_TOKENS.find? (fun t => containsWordCI t (stripChars sql)) with
      | some t => .error (.blockedKeyword t)
      | none =>
        if !(selectMatch (stripChars sql)) && !(withMatch (stripChars sql)) then
          .error .notASelect
        else if hasLimit (stripChars sql) then
          .ok (stripChars sql)
        else
          .ok (rstripChars (stripChars sql) ++ (limitSep ++ natDecimal max_rows))

/-! ### Query executor (`execute_sql` of `sql_sanitizer.py`)

The database connection is modelled as a function from the executed SQL text to
the full list of rows the database would return for it (a row being a tuple of
opaque values, modelled as `List Nat`).  `cursor.fetchmany(k)` on that result
is `List.take k`. -/

/-- `cursor.fetchmany(n)`: at most the first `n` of the available rows. -/
def fetchmany (rows : List (List Nat)) (n : Nat) : List (List Nat) := rows.take n

/-- `execute_sql(sql, row_limit)` of `sql_sanitizer.py`: sanitizes with the
default `max_rows` (1000), executes, and fetches at most `row_limit` rows. -/
def execute_sql (db : List Char → List (List Nat)) (sql : List Char)
    (row_limit : Nat) : Except Reason (List (List Nat)) :=
  match basic_sanitize_and_enforce sql 1000 with
  | .error e => .error e
  | .ok s => .ok (fetchmany (db s) row_limit)

/-! ### Gemini wrapper (`gemini_client.py`) -/

/-- The backquote character (used by the code-fence cleanup). -/
def backquote : Char := Char.ofNat 96

/-- Python `str.strip` over backquotes: `sql.strip("\x60")`. -/
def stripBackquotes (s : List Char) : List Char :=
  ((s.dropWhile (fun c => c = backquote)).reverse.dropWhile
    (fun c => c = backquote)).reverse

/-- Python `str.replace("sql", "")`: delete the non-overlapping occurrences of
`sql`, scanning left to right. -/
def replaceSqlWord : List Char → List Char
  | 's' :: 'q' :: 'l' :: r => replaceSqlWord r
  | c :: rest => c :: replaceSqlWord rest
  | [] => []

/-- The response post-processing of `GeminiWrapper.nl_to_sql`:
`sql = text.strip(); if sql.startswith("\x60\x60\x60"): sql =
sql.strip("\x60").replace("sql", "").strip()`. -/
def fenceClean (t : List Char) : List Char :=
  let sql := stripChars t
  if sql.take 3 = [backquote, backquote, backquote] then
    stripChars (replaceSqlWord (stripBackquotes sql))
  else sql

/-- The fixed instruction text opening the prompt of `nl_to_sql`. -/
def promptHead : List Char :=
  String.toList
    "You are an expert SQL generator for PostgreSQL. Always use double quotes for table and column names exactly as in the schema. Only produce a single SELECT statement, no semicolons and make the sql in one line. Return only SQL, no explanations.\n\nDatabase schema:\n"

/-- The fixed text between the schema and the question in the prompt. -/
def promptMid : List Char := String.toList "\n\nUser question:\n"

/-- The fixed text closing the prompt. -/
def promptTail : List Char := String.toList "\n\n"

/-- `GeminiWrapper.nl_to_sql`: the generation model is a function from prompt
text to response text, and `dbSchema` is the text `get_schema_context()`
renders from the live database.  The caller-supplied `schema_hint` parameter is
overwritten by `get_schema_context()` on the first line of the body. -/
def nl_to_sql (genModel : List Char → List Char) (dbSchema : List Char)
    (nl_query schema_hint : List Char) : List Char :=
  let schema_hint := dbSchema
  fenceClean (genModel (promptHead ++ schema_hint ++ promptMid ++ nl_query ++ promptTail))

/-! ### The API view (`Text2SQLAPIView.post` of `views.py`)

The view is modelled as a function of: the generator (either unavailable, or a
prompt-to-text function), the database schema text, the database execution
behaviour (either a runtime error or the full row list the cursor would
return), and the validated request fields.  Its result is the sequence of
statuses the `QueryLog` record takes, the `generated_sql` stored on it, and the
HTTP response. -/

/-- The `format` request field. -/
inductive Fmt where
  | json
  | dataframeCsv
  deriving DecidableEq, Repr

/-- `QueryLog.status` values named by the spec's state machine. -/
inductive Status where
  | created
  | running
  | success
  | rejected
  | error
  deriving DecidableEq, Repr

/-- The shapes of HTTP response `Text2SQLAPIView.post` returns. -/
inductive Resp where
  | okJson (sql : List Char) (rows : List (List Nat))
  | okCsv (rows : List (List Nat))
  | badRequest (reason : Reason)
  | serverError
  deriving DecidableEq, Repr

/-- `Text2SQLAPIView.post`.  The first component of the result lists the
statuses the `QueryLog` record takes over the request, in order, starting with
the status it is created with (`QueryLog.objects.create(nl_query=nl_query,
status="running")`); `cursor.fetchall()` is the full row list `dbExec`
returns. -/
def viewPost (gen : Except (List Char) (List Char → List Char))
    (dbSchema : List Char)
    (dbExec : List Char → Except (List Char) (List (List Nat)))
    (nl_query schema_hint : List Char) (out_format : Fmt) (max_rows : Nat) :
    List Status × Option (List Char) × Resp :=
  match gen with
  | .error _ => ([.running, .error], none, .serverError)
  | .ok genModel =>
    match basic_sanitize_and_enforce (nl_to_sql genModel dbSchema nl_query schema_hint)
        max_rows with
    | .error r =>
      ([.running, .rejected],
        some (nl_to_sql genModel dbSchema nl_query schema_hint), .badRequest r)
    | .ok sql =>
      match dbExec sql with
      | .error _ =>
        ([.running, .error],
          some (nl_to_sql genModel dbSchema nl_query schema_hint), .serverError)
      | .ok rows =>
        match out_format with
        | .json =>
          ([.running, .success],
            some (nl_to_sql genModel dbSchema nl_query schema_hint), .okJson sql rows)
        | .dataframeCsv =>
          ([.running, .success],
            some (nl_to_sql genModel dbSchema nl_query schema_hint), .okCsv rows)

/-! ### Claim-side reading of the SELECT gate (for claim C4)

Modelled from the spec: the claim reads step 5 as stripping "any leading
opening parentheses and whitespace" in any interleaving before looking for
`SELECT`, whereas the code's `SELECT_RE` is `^\s*(\(*\s*SELECT\b)`. -/

/-- Modelled from the spec: the trimmed string, stripped of any leading opening
parentheses and whitespace in any interleaving, begins case-insensitively with
`SELECT`; or the trimmed string begins case-insensitively with `WITH`. -/
def claimC4Allows (s : List Char) : Bool :=
  (matchCI ['S', 'E', 'L', 'E', 'C', 'T']
      ((stripChars s).dropWhile (fun c => isSpaceChar c || c = '('))).isSome
  || (matchCI ['W', 'I', 'T', 'H'] (stripChars s)).isSome

/-! ## Lemmas on `dropWhile` and stripping -/

theorem dropWhile_head_false {p : Char → Bool} :
    ∀ {l : List Char} {c : Char} {t : List Char}, l.dropWhile p = c :: t → p c = false := by
  intro l
  induction l with
  | nil => intro c t h; cases h
  | cons a l ih =>
    intro c t h
    by_cases hp : p a
    · rw [List.dropWhile_cons_of_pos hp] at h
      exact ih h
    · rw [List.dropWhile_cons_of_neg hp] at h
      cases h
      exact Bool.eq_false_iff.mpr hp

theorem mem_dropWhile_of_mem {p : Char → Bool} {x : Char} (hx : p x = false) :
    ∀ {l : List Char}, x ∈ l → x ∈ l.dropWhile p := by
  intro l
  induction l with
  | nil => intro h; cases h
  | cons a l ih =>
    intro h
    by_cases hp : p a
    · rw [List.dropWhile_cons_of_pos hp]
      rcases List.mem_cons.mp h with rfl | hm
      · rw [hx] at hp; cases hp
      · exact ih hm
    · rw [List.dropWhile_cons_of_neg hp]
      exact h

theorem mem_of_mem_dropWhile {p : Char → Bool} {x : Char} {l : List Char}
    (h : x ∈ l.dropWhile p) : x ∈ l := by
  have hm := List.mem_append_right (l.takeWhile p) h
  rwa [List.takeWhile_append_dropWhile] at hm

theorem mem_stripChars {x : Char} (hx : isSpaceChar x = false) {s : List Char}
    (h : x ∈ s) : x ∈ stripChars s := by
  unfold stripChars rstripChars lstrip
  exact List.mem_reverse.mpr
    (mem_dropWhile_of_mem hx (List.mem_reverse.mpr (mem_dropWhile_of_mem hx h)))

theorem mem_of_mem_stripChars {x : Char} {s : List Char}
    (h : x ∈ stripChars s) : x ∈ s := by
  unfold stripChars rstripChars lstrip at h
  exact mem_of_mem_dropWhile
    (List.mem_reverse.mp (mem_of_mem_dropWhile (List.mem_reverse.mp h)))

theorem lstrip_decomp (s : List Char) :
    lstrip s = stripChars s ++ ((lstrip s).reverse.takeWhile isSpaceChar).reverse := by
  unfold stripChars rstripChars
  conv_lhs =>
    rw [← List.reverse_reverse (lstrip s),
      ← List.takeWhile_append_dropWhile isSpaceChar (lstrip s).reverse]
  rw [List.reverse_append]

theorem strip_head_false {s : List Char} {c : Char} {t : List Char}
    (h : stripChars s = c :: t) : isSpaceChar c = false := by
  have hd := lstrip_decomp s
  rw [h, List.cons_append] at hd
  unfold lstrip at hd
  exact dropWhile_head_false hd

theorem strip_reverse_head_false {s : List Char} {c : Char} {t : List Char}
    (h : (stripChars s).reverse = c :: t) : isSpaceChar c = false := by
  unfold stripChars rstripChars at h
  rw [List.reverse_reverse] at h
  exact dropWhile_head_false h

theorem lstrip_eq_self {s : List Char}
    (h : ∀ c t, s = c :: t → isSpaceChar c = false) : lstrip s = s := by
  cases s with
  | nil => rfl
  | cons c t =>
    exact List.dropWhile_cons_of_neg (by simp [h c t rfl])

theorem rstrip_eq_self {s : List Char}
    (h : ∀ c t, s.reverse = c :: t → isSpaceChar c = false) : rstripChars s = s := by
  have hl := lstrip_eq_self h
  unfold lstrip at hl
  unfold rstripChars
  rw [hl, List.reverse_reverse]

theorem strip_eq_self {s : List Char}
    (h1 : ∀ c t, s = c :: t → isSpaceChar c = false)
    (h2 : ∀ c t, s.reverse = c :: t → isSpaceChar c = false) : stripChars s = s := by
  unfold stripChars
  rw [show lstrip s = s from lstrip_eq_self h1]
  exact rstrip_eq_self h2

theorem stripChars_idem (s : List Char) : stripChars (stripChars s) = stripChars s :=
  strip_eq_self (fun _ _ h => strip_head_false h) (fun _ _ h => strip_reverse_head_false h)

theorem rstrip_stripChars (s : List Char) : rstripChars (stripChars s) = stripChars s :=
  rstrip_eq_self (fun _ _ h => strip_reverse_head_false h)

theorem dropWhile_eq_nil_of_all {p : Char → Bool} :
    ∀ {l : List Char}, (∀ c ∈ l, p c = true) → l.dropWhile p = [] := by
  intro l
  induction l with
  | nil => intro; rfl
  | cons a l ih =>
    intro h
    rw [List.dropWhile_cons_of_pos (h a (List.mem_cons_self a l))]
    exact ih fun c hc => h c (List.mem_cons_of_mem a hc)

theorem dropWhile_append_of_ne_nil {p : Char → Bool} {ys : List Char} :
    ∀ {l : List Char}, l.dropWhile p ≠ [] →
      (l ++ ys).dropWhile p = l.dropWhile p ++ ys := by
  intro l
  induction l with
  | nil => intro h; exact absurd rfl h
  | cons a l ih =>
    intro h
    by_cases hp : p a
    · rw [List.dropWhile_cons_of_pos hp] at h ⊢
      rw [List.cons_append, List.dropWhile_cons_of_pos hp]
      exact ih h
    · rw [List.dropWhile_cons_of_neg hp]
      rw [List.cons_append, List.dropWhile_cons_of_neg hp]

/-! ## Lemmas on the case-insensitive word scanners -/

theorem matchCI_append_some {ys : List Char} :
    ∀ {w xs r : List Char}, matchCI w xs = some r →
      matchCI w (xs ++ ys) = some (r ++ ys)
  | [], xs, r, h => by
    simp only [matchCI, Option.some.injEq] at h
    subst h
    rfl
  | _ :: _, [], _, h => by cases h
  | a :: w, b :: xs, r, h => by
    simp only [matchCI] at h ⊢
    by_cases hc : a.toLower = b.toLower
    · rw [if_pos hc] at h ⊢
      exact matchCI_append_some h
    · rw [if_neg hc] at h
      cases h

theorem matchCI_split {ys : List Char} :
    ∀ {w xs r : List Char}, matchCI w (xs ++ ys) = some r →
      (∃ rx, matchCI w xs = some rx ∧ r = rx ++ ys) ∨
      (∃ a, a ∈ w ∧ ∃ y t, ys = y :: t ∧ a.toLower = y.toLower)
  | [], xs, r, h => by
    simp only [matchCI, Option.some.injEq] at h
    exact .inl ⟨xs, rfl, h.symm⟩
  | a :: w, [], r, h => by
    cases hys : ys with
    | nil => rw [hys] at h; cases h
    | cons y t =>
      rw [hys] at h
      simp only [List.nil_append, matchCI] at h
      by_cases hc : a.toLower = y.toLower
      · exact .inr ⟨a, List.mem_cons_self a w, y, t, rfl, hc⟩
      · rw [if_neg hc] at h; cases h
  | a :: w, b :: xs, r, h => by
    simp only [List.cons_append, matchCI] at h
    by_cases hc : a.toLower = b.toLower
    · rw [if_pos hc] at h
      rcases matchCI_split h with ⟨rx, h1, h2⟩ | ⟨a', ha', hy⟩
      · exact .inl ⟨rx, by simp only [matchCI, if_pos hc]; exact h1, h2⟩
      · exact .inr ⟨a', List.mem_cons_of_mem a ha', hy⟩
    · rw [if_neg hc] at h; cases h

theorem wordTail_of_append {w xs ys : List Char}
    (hno : ∀ a ∈ w, ∀ y t, ys = y :: t → a.toLower ≠ y.toLower)
    (h : wordTail w (xs ++ ys) = true) : wordTail w xs = true := by
  unfold wordTail at h ⊢
  cases hm : matchCI w (xs ++ ys) with
  | none => rw [hm] at h; cases h
  | some r =>
    rw [hm] at h
    rcases matchCI_split hm with ⟨rx, h1, h2⟩ | ⟨a, ha, y, t, hys, hy⟩
    · rw [h1]
      cases rx with
      | nil => rfl
      | cons c t =>
        subst h2
        rw [List.cons_append] at h
        exact h
    · exact absurd hy (hno a ha y t hys)

theorem wordTail_append_intro {w xs : List Char} (h : wordTail w xs = true)
    {y : Char} {zs : List Char} (hy : isWordChar y = false) :
    wordTail w (xs ++ y :: zs) = true := by
  unfold wordTail at h ⊢
  cases hm : matchCI w xs with
  | none => rw [hm] at h; cases h
  | some rx =>
    rw [hm] at h
    rw [matchCI_append_some hm]
    cases rx with
    | nil => simp [hy]
    | cons c t => rw [List.cons_append]; exact h

theorem scanBoundary_of_prev {tm : List Char → Bool} {prev : Option Char} :
    ∀ {s : List Char}, scanBoundary tm prev s = true → scanBoundary tm none s = true := by
  intro s
  cases s with
  | nil =>
    intro h
    unfold scanBoundary at h ⊢
    simp only [boundaryOk, Bool.true_and]
    exact (Bool.and_eq_true_iff.mp h).2
  | cons c rest =>
    intro h
    unfold scanBoundary at h ⊢
    rcases Bool.or_eq_true_iff.mp h with h1 | h2
    · exact Bool.or_eq_true_iff.mpr (.inl (by
        simp only [boundaryOk, Bool.true_and]
        exact (Bool.and_eq_true_iff.mp h1).2))
    · exact Bool.or_eq_true_iff.mpr (.inr h2)

theorem scanWord_append_elim {w ys : List Char}
    (hno : ∀ a ∈ w, ∀ y t, ys = y :: t → a.toLower ≠ y.toLower) :
    ∀ {xs : List Char} {prev : Option Char},
      scanBoundary (wordTail w) prev (xs ++ ys) = true →
      scanBoundary (wordTail w) prev xs = true ∨
        scanBoundary (wordTail w) none ys = true := by
  intro xs
  induction xs with
  | nil => exact fun h => .inr (scanBoundary_of_prev h)
  | cons c xs ih =>
    intro prev h
    rw [List.cons_append] at h
    unfold scanBoundary at h
    rcases Bool.or_eq_true_iff.mp h with h1 | h2
    · obtain ⟨hb, ht⟩ := Bool.and_eq_true_iff.mp h1
      rw [← List.cons_append] at ht
      left
      unfold scanBoundary
      exact Bool.or_eq_true_iff.mpr (.inl (Bool.and_eq_true_iff.mpr
        ⟨hb, wordTail_of_append hno ht⟩))
    · rcases ih h2 with h3 | h3
      · left
        unfold scanBoundary
        exact Bool.or_eq_true_iff.mpr (.inr h3)
      · exact .inr h3

theorem containsWordCI_append_elim {w xs ys : List Char}
    (hno : ∀ a ∈ w, ∀ y t, ys = y :: t → a.toLower ≠ y.toLower)
    (h : containsWordCI w (xs ++ ys) = true) :
    containsWordCI w xs = true ∨ containsWordCI w ys = true :=
  scanWord_append_elim hno h

theorem containsWordCI_cons_elim {a : Char} {w' : List Char} {y : Char} {zs : List Char}
    (hne : a.toLower ≠ y.toLower)
    (h : containsWordCI (a :: w') (y :: zs) = true) :
    containsWordCI (a :: w') zs = true := by
  unfold containsWordCI scanBoundary at h
  rcases Bool.or_eq_true_iff.mp h with h1 | h2
  · obtain ⟨_, ht⟩ := Bool.and_eq_true_iff.mp h1
    unfold wordTail at ht
    simp only [matchCI, if_neg hne] at ht
    exact absurd ht (by decide)
  · exact scanBoundary_of_prev h2

theorem scanWord_false_of_no_head {a : Char} {w' : List Char} :
    ∀ {s : List Char} {prev : Option Char}, (∀ c ∈ s, a.toLower ≠ c.toLower) →
      scanBoundary (wordTail (a :: w')) prev s = false := by
  intro s
  induction s with
  | nil =>
    intro prev _
    unfold scanBoundary wordTail
    simp [matchCI]
  | cons c rest ih =>
    intro prev hall
    unfold scanBoundary
    rw [Bool.or_eq_false_iff]
    constructor
    · rw [Bool.and_eq_false_iff]
      right
      unfold wordTail
      simp only [matchCI, if_neg (hall c (List.mem_cons_self c rest))]
    · exact ih fun x hx => hall x (List.mem_cons_of_mem c hx)

theorem containsWordCI_false_of_no_head {a : Char} {w' s : List Char}
    (hall : ∀ c ∈ s, a.toLower ≠ c.toLower) :
    containsWordCI (a :: w') s = false :=
  scanWord_false_of_no_head hall

theorem scanBoundary_snoc_intro {tm : List Char → Bool} {c : Char} {ys : List Char}
    (h : scanBoundary tm (some c) ys = true) :
    ∀ (xs : List Char) {prev : Option Char},
      scanBoundary tm prev ((xs ++ [c]) ++ ys) = true := by
  intro xs
  induction xs with
  | nil =>
    intro prev
    unfold scanBoundary
    exact Bool.or_eq_true_iff.mpr (.inr h)
  | cons d xs ih =>
    intro prev
    rw [List.cons_append, List.cons_append]
    unfold scanBoundary
    exact Bool.or_eq_true_iff.mpr (.inr ih)

/-! ## Lemmas on decimal rendering -/

theorem natDecimalCore_mem :
    ∀ {f n : Nat} {acc : List Char} {c : Char}, c ∈ natDecimalCore f n acc →
      c ∈ acc ∨ ∃ k, k < 10 ∧ c = Nat.digitChar k := by
  intro f
  induction f with
  | zero => exact fun h => .inl h
  | succ f ih =>
    intro n acc c h
    unfold natDecimalCore at h
    by_cases hn : n = 0
    · rw [if_pos hn] at h; exact .inl h
    · rw [if_neg hn] at h
      rcases ih h with hm | hd
      · rcases List.mem_cons.mp hm with rfl | hm'
        · exact .inr ⟨n % 10, Nat.mod_lt n (by decide), rfl⟩
        · exact .inl hm'
      · exact .inr hd

theorem natDecimal_mem {n : Nat} {c : Char} (h : c ∈ natDecimal n) :
    ∃ k, k < 10 ∧ c = Nat.digitChar k := by
  unfold natDecimal at h
  by_cases hn : n = 0
  · rw [if_pos hn] at h
    rcases List.mem_singleton.mp h with rfl
    exact ⟨0, by decide, rfl⟩
  · rw [if_neg hn] at h
    rcases natDecimalCore_mem h with hm | hd
    · cases hm
    · exact hd

theorem natDecimalCore_append :
    ∀ (f n : Nat) (acc : List Char), ∃ pre, natDecimalCore f n acc = pre ++ acc := by
  intro f
  induction f with
  | zero => exact fun n acc => ⟨[], rfl⟩
  | succ f ih =>
    intro n acc
    unfold natDecimalCore
    by_cases hn : n = 0
    · rw [if_pos hn]; exact ⟨[], rfl⟩
    · rw [if_neg hn]
      obtain ⟨pre, hp⟩ := ih (n / 10) (Nat.digitChar (n % 10) :: acc)
      exact ⟨pre ++ [Nat.digitChar (n % 10)], by rw [hp]; simp⟩

theorem natDecimal_ne_nil (n : Nat) : natDecimal n ≠ [] := by
  unfold natDecimal
  by_cases hn : n = 0
  · rw [if_pos hn]; exact fun h => by cases h
  · rw [if_neg hn]
    cases n with
    | zero => exact absurd rfl hn
    | succ m =>
      unfold natDecimalCore
      rw [if_neg hn]
      obtain ⟨pre, hp⟩ := natDecimalCore_append
        m ((m + 1) / 10) [Nat.digitChar ((m + 1) % 10)]
      rw [hp]
      exact fun h => by cases List.append_eq_nil.mp h |>.2

theorem digitChar_isDigit {k : Nat} (h : k < 10) : (Nat.digitChar k).isDigit = true := by
  interval_cases k <;> decide

theorem digitChar_not_space {k : Nat} (h : k < 10) : isSpaceChar (Nat.digitChar k) = false := by
  interval_cases k <;> decide

theorem digitChar_ne_semicolon {k : Nat} (h : k < 10) : Nat.digitChar k ≠ ';' := by
  interval_cases k <;> decide

theorem digitChar_toLower_toNat {k : Nat} (h : k < 10) :
    ((Nat.digitChar k).toLower).toNat = 48 + k := by
  interval_cases k <;> decide

theorem natDecimal_all_digit {n : Nat} : ∀ c ∈ natDecimal n, c.isDigit = true := by
  intro c hc
  obtain ⟨k, hk, rfl⟩ := natDecimal_mem hc
  exact digitChar_isDigit hk

theorem natDecimal_all_not_space {n : Nat} : ∀ c ∈ natDecimal n, isSpaceChar c = false := by
  intro c hc
  obtain ⟨k, hk, rfl⟩ := natDecimal_mem hc
  exact digitChar_not_space hk

/-- No word whose head lowercases to a lowercase letter occurs in a decimal
digit string. -/
theorem no_word_in_natDecimal {a : Char} {w' : List Char} {n : Nat}
    (h97 : 97 ≤ a.toLower.toNat) :
    containsWordCI (a :: w') (natDecimal n) = false := by
  apply containsWordCI_false_of_no_head
  intro c hc heq
  obtain ⟨k, hk, rfl⟩ := natDecimal_mem hc
  have h1 := digitChar_toLower_toNat hk
  have h2 := congrArg Char.toNat heq
  omega

/-! ## `hasLimit` holds after appending the limit clause -/

theorem limitTail_digits {d : Char} {ds : List Char}
    (hd : d.isDigit = true) (hds : ∀ c ∈ ds, c.isDigit = true)
    (hdsp : isSpaceChar d = false) :
    limitTail ('L' :: 'I' :: 'M' :: 'I' :: 'T' :: ' ' :: d :: ds) = true := by
  unfold limitTail
  rw [show matchCI ['L', 'I', 'M', 'I', 'T']
      ('L' :: 'I' :: 'M' :: 'I' :: 'T' :: ' ' :: d :: ds) = some (' ' :: d :: ds) from rfl]
  show (if isSpaceChar ' ' then _ else false) = true
  rw [if_pos (show isSpaceChar ' ' = true from rfl)]
  rw [List.dropWhile_cons_of_neg (by simp [hdsp])]
  show (d.isDigit && _) = true
  rw [hd, dropWhile_eq_nil_of_all hds]
  rfl

theorem hasLimit_appended (cleaned : List Char) (n : Nat) :
    hasLimit (cleaned ++ (limitSep ++ natDecimal n)) = true := by
  obtain ⟨d, ds, hdd⟩ := List.exists_cons_of_ne_nil (natDecimal_ne_nil n)
  have hdm : d ∈ natDecimal n := by
    rw [hdd]
    exact List.mem_cons_self d ds
  have hd : d.isDigit = true := natDecimal_all_digit d hdm
  have hds : ∀ c ∈ ds, c.isDigit = true := by
    intro c hc
    exact natDecimal_all_digit c (by rw [hdd]; exact List.mem_cons_of_mem d hc)
  have hdsp : isSpaceChar d = false := natDecimal_all_not_space d hdm
  have hre : cleaned ++ (limitSep ++ natDecimal n) =
      (cleaned ++ [' ']) ++ ('L' :: 'I' :: 'M' :: 'I' :: 'T' :: ' ' :: natDecimal n) := by
    simp [limitSep]
  rw [hre, hdd]
  unfold hasLimit
  exact scanBoundary_snoc_intro (by
    unfold scanBoundary
    exact Bool.or_eq_true_iff.mpr (.inl (Bool.and_eq_true_iff.mpr
      ⟨rfl, limitTail_digits hd hds hdsp⟩))) cleaned

/-! ## The SELECT / WITH gates survive appending the limit clause -/

theorem wordTail_ne_nil {a : Char} {w s : List Char}
    (h : wordTail (a :: w) s = true) : s ≠ [] := by
  intro hs
  subst hs
  unfold wordTail at h
  simp only [matchCI] at h
  exact absurd h (by decide)

theorem dropWhile_src_ne_nil {p : Char → Bool} {l : List Char}
    (h : l.dropWhile p ≠ []) : l ≠ [] := by
  intro hl
  subst hl
  exact h rfl

theorem selectMatch_append {s : List Char} (h : selectMatch s = true)
    {y : Char} {zs : List Char} (hy : isWordChar y = false) :
    selectMatch (s ++ y :: zs) = true := by
  unfold selectMatch at h ⊢
  have h3 : ((s.dropWhile isSpaceChar).dropWhile
      (fun c => c = '(')).dropWhile isSpaceChar ≠ [] := wordTail_ne_nil h
  have h2 : (s.dropWhile isSpaceChar).dropWhile (fun c => c = '(') ≠ [] :=
    dropWhile_src_ne_nil h3
  have h1 : s.dropWhile isSpaceChar ≠ [] := dropWhile_src_ne_nil h2
  rw [dropWhile_append_of_ne_nil h1, dropWhile_append_of_ne_nil h2,
    dropWhile_append_of_ne_nil h3]
  exact wordTail_append_intro h hy

theorem withMatch_append {s : List Char} (h : withMatch s = true)
    {y : Char} {zs : List Char} (hy : isWordChar y = false) :
    withMatch (s ++ y :: zs) = true := by
  unfold withMatch at h ⊢
  have h1 : s.dropWhile isSpaceChar ≠ [] := wordTail_ne_nil h
  rw [dropWhile_append_of_ne_nil h1]
  exact wordTail_append_intro h hy

/-! ## No blocked or catalog token occurs in the appended limit clause -/

theorem token_not_in_appended {a : Char} {w' cleaned : List Char} {n : Nat}
    (hcl : containsWordCI (a :: w') cleaned = false)
    (hsp : ∀ b ∈ a :: w', b.toLower ≠ ' ')
    (hlim : containsWordCI (a :: w') ['L', 'I', 'M', 'I', 'T'] = false)
    (h97 : 97 ≤ a.toLower.toNat) :
    containsWordCI (a :: w') (cleaned ++ (limitSep ++ natDecimal n)) = false := by
  by_contra hcon
  have hcon' : containsWordCI (a :: w') (cleaned ++ (limitSep ++ natDecimal n)) = true :=
    eq_true_of_ne_false hcon
  have hno : ∀ b ∈ a :: w', ∀ y t, limitSep ++ natDecimal n = y :: t →
      b.toLower ≠ y.toLower := by
    intro b hb y t heq
    have hy : y = ' ' := by
      have : (' ' : Char) :: ('L' :: 'I' :: 'M' :: 'I' :: 'T' :: ' ' :: natDecimal n) =
          y :: t := heq
      exact (List.cons.injEq _ _ _ _ ▸ this).1.symm
    subst hy
    exact hsp b hb
  rcases containsWordCI_append_elim hno hcon' with h1 | h1
  · rw [hcl] at h1; cases h1
  · have h1' : containsWordCI (a :: w')
        (' ' :: (['L', 'I', 'M', 'I', 'T'] ++ (' ' :: natDecimal n))) = true := h1
    have h2 := containsWordCI_cons_elim (hsp a (List.mem_cons_self a w')) h1'
    have hno2 : ∀ b ∈ a :: w', ∀ y t, (' ' :: natDecimal n : List Char) = y :: t →
        b.toLower ≠ y.toLower := by
      intro b hb y t heq
      have hy : y = ' ' := ((List.cons.injEq _ _ _ _ ▸ heq).1).symm
      subst hy
      exact hsp b hb
    rcases containsWordCI_append_elim hno2 h2 with h3 | h3
    · rw [hlim] at h3; cases h3
    · have h4 := containsWordCI_cons_elim (hsp a (List.mem_cons_self a w')) h3
      rw [no_word_in_natDecimal h97] at h4
      cases h4

/-! ## Branch analysis of the sanitizer -/

theorem sanitize_ok_elim {sql : List Char} {m : Nat} {out : List Char}
    (h : basic_sanitize_and_enforce sql m = .ok out) :
    ¬(sql = [] ∨ stripChars sql = []) ∧
    (stripChars sql).any (fun c => c = ';') = false ∧
    (∀ t ∈ SYSTEM_TABLES, containsWordCI t (stripChars sql) = false) ∧
    (∀ t ∈ BLOCKED_TOKENS, containsWordCI t (stripChars sql) = false) ∧
    (selectMatch (stripChars sql) = true ∨ withMatch (stripChars sql) = true) ∧
    ((hasLimit (stripChars sql) = true ∧ out = stripChars sql) ∨
     (hasLimit (stripChars sql) = false ∧
       out = stripChars sql ++ (limitSep ++ natDecimal m))) := by
  unfold basic_sanitize_and_enforce at h
  split at h
  · exact Except.noConfusion h
  next h1 =>
    split at h
    · exact Except.noConfusion h
    next h2 =>
      split at h
      · exact Except.noConfusion h
      next hsys =>
        split at h
        · exact Except.noConfusion h
        next hblk =>
          split at h
          · exact Except.noConfusion h
          next h5 =>
            have h2' : (stripChars sql).any (fun c => c = ';') = false :=
              Bool.not_eq_true _ ▸ h2
            have hsys' : ∀ t ∈ SYSTEM_TABLES, containsWordCI t (stripChars sql) = false := by
              intro t ht
              exact Bool.not_eq_true _ ▸ List.find?_eq_none.mp hsys t ht
            have hblk' : ∀ t ∈ BLOCKED_TOKENS, containsWordCI t (stripChars sql) = false := by
              intro t ht
              exact Bool.not_eq_true _ ▸ List.find?_eq_none.mp hblk t ht
            have h5' : selectMatch (stripChars sql) = true ∨
                withMatch (stripChars sql) = true := by
              by_cases hs : selectMatch (stripChars sql) = true
              · exact .inl hs
              · by_cases hw : withMatch (stripChars sql) = true
                · exact .inr hw
                · simp only [Bool.not_eq_true] at hs hw
                  rw [hs, hw] at h5
                  exact absurd rfl h5
            split at h
            next h6 =>
              injection h with h
              exact ⟨h1, h2', hsys', hblk', h5', .inl ⟨h6, h.symm⟩⟩
            next h6 =>
              injection h with h
              rw [rstrip_stripChars] at h
              exact ⟨h1, h2', hsys', hblk', h5',
                .inr ⟨Bool.not_eq_true _ ▸ h6, h.symm⟩⟩

theorem sanitize_eval (sql : List Char) (m : Nat)
    (h1 : ¬(sql = [] ∨ stripChars sql = []))
    (h2 : (stripChars sql).any (fun c => c = ';') = false)
    (h3 : ∀ t ∈ SYSTEM_TABLES, containsWordCI t (stripChars sql) = false)
    (h4 : ∀ t ∈ BLOCKED_TOKENS, containsWordCI t (stripChars sql) = false) :
    basic_sanitize_and_enforce sql m =
      if selectMatch (stripChars sql) = false ∧ withMatch (stripChars sql) = false then
        .error .notASelect
      else if hasLimit (stripChars sql) = true then
        .ok (stripChars sql)
      else
        .ok (stripChars sql ++ (limitSep ++ natDecimal m)) := by
  unfold basic_sanitize_and_enforce
  rw [if_neg h1, if_neg (by simp [h2])]
  rw [show SYSTEM_TABLES.find? (fun t => containsWordCI t (stripChars sql)) = none from
    List.find?_eq_none.mpr (fun t ht => by simp [h3 t ht])]
  rw [show BLOCKED_TOKENS.find? (fun t => containsWordCI t (stripChars sql)) = none from
    List.find?_eq_none.mpr (fun t ht => by simp [h4 t ht])]
  show (if (!(selectMatch (stripChars sql)) && !(withMatch (stripChars sql))) = true then _
    else _) = _
  by_cases hsw : selectMatch (stripChars sql) = false ∧ withMatch (stripChars sql) = false
  · rw [if_pos (by rw [hsw.1, hsw.2]; rfl), if_pos hsw]
  · rw [if_neg (by
      intro hcon
      rcases Bool.and_eq_true_iff.mp hcon with ⟨ha, hb⟩
      simp only [Bool.not_eq_true'] at ha hb
      exact hsw ⟨ha, hb⟩), if_neg hsw]
    rw [rstrip_stripChars]

/-- All invariants `basic_sanitize_and_enforce` guarantees of a successful
result, together with the facts needed to re-run it on its own output. -/
theorem sanitize_ok_invariants {sql : List Char} {m : Nat} {out : List Char}
    (h : basic_sanitize_and_enforce sql m = .ok out) :
    out.any (fun c => c = ';') = false ∧
    (∀ t ∈ SYSTEM_TABLES, containsWordCI t out = false) ∧
    (∀ t ∈ BLOCKED_TOKENS, containsWordCI t out = false) ∧
    (selectMatch out = true ∨ withMatch out = true) ∧
    hasLimit out = true ∧ stripChars out = out ∧ out ≠ [] := by
  obtain ⟨h1, h2, h3, h4, h5, hsh⟩ := sanitize_ok_elim h
  have hne : stripChars sql ≠ [] := fun hh => h1 (.inr hh)
  rcases hsh with ⟨hl, rfl⟩ | ⟨hl, rfl⟩
  · exact ⟨h2, h3, h4, h5, hl, stripChars_idem sql, hne⟩
  · obtain ⟨c0, t0, hc0⟩ := List.exists_cons_of_ne_nil hne
    have hrevne : (natDecimal m).reverse ≠ [] := by
      simp [natDecimal_ne_nil m]
    obtain ⟨d, ds, hdrev⟩ := List.exists_cons_of_ne_nil hrevne
    have hdmem : d ∈ natDecimal m := by
      rw [← List.mem_reverse, hdrev]
      exact List.mem_cons_self d ds
    have hsep : limitSep ++ natDecimal m =
        ' ' :: (['L', 'I', 'M', 'I', 'T', ' '] ++ natDecimal m) := rfl
    refine ⟨?_, ?_, ?_, ?_, hasLimit_appended _ m, ?_, ?_⟩
    · rw [List.any_eq_false]
      intro x hx
      rcases List.mem_append.mp hx with hx | hx
      · have := List.any_eq_false.mp h2 x hx
        simpa using this
      · rcases List.mem_append.mp hx with hx | hx
        · simp only [limitSep, List.mem_cons] at hx
          rcases hx with rfl | rfl | rfl | rfl | rfl | rfl | rfl | hx
          any_goals decide
          cases hx
        · obtain ⟨k, hk, rfl⟩ := natDecimal_mem hx
          simpa using digitChar_ne_semicolon hk
    · intro t ht
      have hcl := h3 t ht
      fin_cases ht <;>
        exact token_not_in_appended hcl (by decide) (by decide) (by decide)
    · intro t ht
      have hcl := h4 t ht
      fin_cases ht <;>
        exact token_not_in_appended hcl (by decide) (by decide) (by decide)
    · rcases h5 with hs | hw
      · exact .inl (by rw [hsep]; exact selectMatch_append hs (by decide))
      · exact .inr (by rw [hsep]; exact withMatch_append hw (by decide))
    · apply strip_eq_self
      · intro c t hct
        rw [hc0, List.cons_append] at hct
        cases hct
        exact strip_head_false hc0
      · intro c t hct
        rw [List.reverse_append, List.reverse_append, hdrev, List.cons_append,
          List.cons_append] at hct
        cases hct
        exact natDecimal_all_not_space d hdmem
    · intro hh
      exact hne (List.append_eq_nil.mp hh).1

/-! ## The claims -/

/-- Claim C1: every input containing at least one semicolon anywhere is
rejected by `basic_sanitize_and_enforce` with the multiple-statements reason,
regardless of what precedes or follows the semicolon — in particular the
rejection happens before the blocked-keyword scan, so an input with both a
semicolon and a blocked keyword is rejected as multiple-statements. -/
theorem claim_C1_semicolon_rejected (sql : List Char) (m : Nat) (h : ';' ∈ sql) :
    basic_sanitize_and_enforce sql m = .error .multipleStatements := by
  have hmem : ';' ∈ stripChars sql := mem_stripChars (by decide) h
  have hne : stripChars sql ≠ [] := List.ne_nil_of_mem hmem
  have hne0 : sql ≠ [] := List.ne_nil_of_mem h
  unfold basic_sanitize_and_enforce
  rw [if_neg (by rintro (hh | hh); exacts [hne0 hh, hne hh]),
    if_pos (List.any_eq_true.mpr ⟨';', hmem, by decide⟩)]

/-- Witness for C1 at the spec's scenario input, which also contains the
blocked keyword DROP. -/
theorem claim_C1_witness :
    basic_sanitize_and_enforce
        (String.toList "select name from customers; DROP TABLE customers") 1000 =
      .error .multipleStatements :=
  claim_C1_semicolon_rejected _ 1000 (by decide)

/-- Claim C2: every successful result of `basic_sanitize_and_enforce` contains
no semicolon, matches no blocked keyword as a whole word, references no
system-catalog identifier, passes the SELECT-or-WITH gate, and contains a
`LIMIT` clause. -/
theorem claim_C2_sanitized_invariants (sql : List Char) (max_rows : Nat)
    (out : List Char) (h : basic_sanitize_and_enforce sql max_rows = .ok out) :
    ';' ∉ out ∧
    (∀ t ∈ BLOCKED_TOKENS, containsWordCI t out = false) ∧
    (∀ t ∈ SYSTEM_TABLES, containsWordCI t out = false) ∧
    (selectMatch out = true ∨ withMatch out = true) ∧
    hasLimit out = true := by
  obtain ⟨ha, hsys, hblk, hsel, hlim, _, _⟩ := sanitize_ok_invariants h
  refine ⟨?_, hblk, hsys, hsel, hlim⟩
  intro hmem
  have := List.any_eq_false.mp ha ';' hmem
  simp at this

/-- Witness for C2 at the spec's scenario input. -/
theorem claim_C2_witness :
    ';' ∉ String.toList "SELECT * FROM orders LIMIT 50" ∧
    (∀ t ∈ BLOCKED_TOKENS,
      containsWordCI t (String.toList "SELECT * FROM orders LIMIT 50") = false) ∧
    (∀ t ∈ SYSTEM_TABLES,
      containsWordCI t (String.toList "SELECT * FROM orders LIMIT 50") = false) ∧
    (selectMatch (String.toList "SELECT * FROM orders LIMIT 50") = true ∨
      withMatch (String.toList "SELECT * FROM orders LIMIT 50") = true) ∧
    hasLimit (String.toList "SELECT * FROM orders LIMIT 50") = true :=
  claim_C2_sanitized_invariants (String.toList "SELECT * FROM orders") 50 _ rfl

/-- Claim C3: every non-empty, semicolon-free, system-catalog-free input
containing a blocked keyword as a whole word (any letter case) is rejected
with the blocked-keyword reason, carrying the first keyword of the declared
order that occurs (`List.find?` returns the first match). -/
theorem claim_C3_blocked_keyword (sql : List Char) (m : Nat)
    (h0 : stripChars sql ≠ [])
    (h1 : (stripChars sql).any (fun c => c = ';') = false)
    (h2 : ∀ t ∈ SYSTEM_TABLES, containsWordCI t (stripChars sql) = false)
    (h3 : ∃ t ∈ BLOCKED_TOKENS, containsWordCI t (stripChars sql) = true) :
    ∃ t, BLOCKED_TOKENS.find? (fun w => containsWordCI w (stripChars sql)) = some t ∧
      basic_sanitize_and_enforce sql m = .error (.blockedKeyword t) := by
  cases hf : BLOCKED_TOKENS.find? (fun w => containsWordCI w (stripChars sql)) with
  | none =>
    obtain ⟨t, ht, hct⟩ := h3
    have := List.find?_eq_none.mp hf t ht
    rw [hct] at this
    exact absurd rfl this
  | some t =>
    refine ⟨t, rfl, ?_⟩
    unfold basic_sanitize_and_enforce
    rw [if_neg (by rintro (rfl | hh); exacts [h0 rfl, h0 hh]), if_neg (by simp [h1])]
    rw [show SYSTEM_TABLES.find? (fun t => containsWordCI t (stripChars sql)) = none from
      List.find?_eq_none.mpr (fun t ht => by simp [h2 t ht])]
    rw [hf]

/-- Witness for C3 at the spec's scenario input: UPDATE occurs before SET in
the declared order, and UPDATE is reported. -/
theorem claim_C3_witness :
    ∃ t, BLOCKED_TOKENS.find?
        (fun w => containsWordCI w
          (stripChars (String.toList "UPDATE products SET unitPrice=0"))) = some t ∧
      basic_sanitize_and_enforce (String.toList "UPDATE products SET unitPrice=0") 1000 =
        .error (.blockedKeyword t) :=
  claim_C3_blocked_keyword _ 1000 (by decide) (by decide) (by decide) (by decide)

/-- Counterexample to claim C4: the input has its leading parentheses and
whitespace interleaved as paren-space-paren, so stripping them in any
interleaving reaches SELECT and the claim predicts acceptance, but the code's
`SELECT_RE` (`^\s*(\(*\s*SELECT\b)`) admits only one whitespace block before
and after a single parenthesis block, so the input is rejected not-a-select. -/
theorem claim_C4_counterexample :
    claimC4Allows (String.toList "( (SELECT 1") = true ∧
    basic_sanitize_and_enforce (String.toList "( (SELECT 1") 1000 =
      .error .notASelect :=
  ⟨rfl, rfl⟩

/-- Claim C4 (amended): for inputs passing the earlier checks, the not-a-select
rejection occurs exactly when the code's gate fails: the trimmed string must
match whitespace, then opening parentheses, then whitespace, then the word
SELECT (one block each, not an arbitrary interleaving), or begin with the word
WITH. -/
theorem claim_C4_amended (sql : List Char) (m : Nat)
    (h0 : stripChars sql ≠ [])
    (h1 : (stripChars sql).any (fun c => c = ';') = false)
    (h2 : ∀ t ∈ SYSTEM_TABLES, containsWordCI t (stripChars sql) = false)
    (h3 : ∀ t ∈ BLOCKED_TOKENS, containsWordCI t (stripChars sql) = false) :
    ((selectMatch (stripChars sql) = true ∨ withMatch (stripChars sql) = true) →
      basic_sanitize_and_enforce sql m ≠ .error .notASelect) ∧
    (selectMatch (stripChars sql) = false ∧ withMatch (stripChars sql) = false →
      basic_sanitize_and_enforce sql m = .error .notASelect) := by
  have hne : ¬(sql = [] ∨ stripChars sql = []) := by
    rintro (rfl | hh)
    exacts [h0 rfl, h0 hh]
  have he := sanitize_eval sql m hne h1 h2 h3
  constructor
  · intro hsw hcon
    rw [he] at hcon
    by_cases hcond : selectMatch (stripChars sql) = false ∧
        withMatch (stripChars sql) = false
    · rcases hsw with hs | hw
      · rw [hcond.1] at hs; cases hs
      · rw [hcond.2] at hw; cases hw
    · rw [if_neg hcond] at hcon
      split at hcon <;> exact Except.noConfusion hcon
  · intro hsw
    rw [he, if_pos hsw]

/-- Witness for the amended C4: EXPLAIN SELECT passes every earlier check but
fails the SELECT/WITH gate, so it is rejected not-a-select. -/
theorem claim_C4_witness :
    ((selectMatch (stripChars (String.toList "EXPLAIN SELECT 1")) = true ∨
        withMatch (stripChars (String.toList "EXPLAIN SELECT 1")) = true) →
      basic_sanitize_and_enforce (String.toList "EXPLAIN SELECT 1") 1000 ≠
        .error .notASelect) ∧
    (selectMatch (stripChars (String.toList "EXPLAIN SELECT 1")) = false ∧
        withMatch (stripChars (String.toList "EXPLAIN SELECT 1")) = false →
      basic_sanitize_and_enforce (String.toList "EXPLAIN SELECT 1") 1000 =
        .error .notASelect) :=
  claim_C4_amended _ 1000 (by decide) (by decide) (by decide) (by decide)

/-- Claim C5: on inputs the sanitizer accepts, if a `LIMIT <integer>` clause is
already present the trimmed input is returned unchanged (even if that limit
exceeds `max_rows`), and otherwise the trimmed input with a single
appended limit clause is returned. -/
theorem claim_C5_limit_preserved_or_appended (sql : List Char) (m : Nat)
    (h : ∃ out, basic_sanitize_and_enforce sql m = .ok out) :
    (hasLimit (stripChars sql) = true →
      basic_sanitize_and_enforce sql m = .ok (stripChars sql)) ∧
    (hasLimit (stripChars sql) = false →
      basic_sanitize_and_enforce sql m =
        .ok (stripChars sql ++ (limitSep ++ natDecimal m))) := by
  obtain ⟨out, hout⟩ := h
  obtain ⟨_, _, _, _, _, hsh⟩ := sanitize_ok_elim hout
  constructor
  · intro hl
    rcases hsh with ⟨_, rfl⟩ | ⟨hl2, _⟩
    · exact hout
    · rw [hl] at hl2; cases hl2
  · intro hl
    rcases hsh with ⟨hl2, _⟩ | ⟨_, rfl⟩
    · rw [hl] at hl2; cases hl2
    · exact hout

/-- Witness for C5 at the spec's scenario input (no limit present, so
`LIMIT 50` is appended). -/
theorem claim_C5_witness :
    (hasLimit (stripChars (String.toList "SELECT * FROM orders")) = true →
      basic_sanitize_and_enforce (String.toList "SELECT * FROM orders") 50 =
        .ok (stripChars (String.toList "SELECT * FROM orders"))) ∧
    (hasLimit (stripChars (String.toList "SELECT * FROM orders")) = false →
      basic_sanitize_and_enforce (String.toList "SELECT * FROM orders") 50 =
        .ok (stripChars (String.toList "SELECT * FROM orders") ++
          (limitSep ++ natDecimal 50))) :=
  claim_C5_limit_preserved_or_appended _ 50
    ⟨String.toList "SELECT * FROM orders LIMIT 50", rfl⟩

/-- Counterexample to claim C6: in the API view the execution step fetches with
`cursor.fetchall()`, so with `max_rows = 2` a database returning three rows
yields a response carrying all three rows — no physical row cap is applied on
the request path. -/
theorem claim_C6_counterexample :
    (viewPost (.ok fun _ => String.toList "SELECT 1") (String.toList "s")
        (fun _ => .ok [[0], [0], [0]]) (String.toList "q") (String.toList "")
        .json 2).2.2 =
      .okJson (String.toList "SELECT 1 LIMIT 2") [[0], [0], [0]] ∧
    ¬(([[0], [0], [0]] : List (List Nat)).length ≤ 2) :=
  ⟨rfl, by decide⟩

/-- Claim C6 (amended): the standalone `execute_sql` helper does cap physically
fetched rows at `row_limit` via `fetchmany`; the API view path fetches all rows
with no cap. -/
theorem claim_C6_amended (db : List Char → List (List Nat)) (sql : List Char)
    (rl : Nat) (rows : List (List Nat)) (h : execute_sql db sql rl = .ok rows) :
    rows.length ≤ rl := by
  unfold execute_sql at h
  cases hs : basic_sanitize_and_enforce sql 1000 with
  | error e => rw [hs] at h; exact Except.noConfusion h
  | ok s =>
    rw [hs] at h
    injection h with h
    rw [← h]
    unfold fetchmany
    rw [List.length_take]
    exact Nat.min_le_left _ _

/-- Witness for the amended C6. -/
theorem claim_C6_witness : ([[1], [2]] : List (List Nat)).length ≤ 2 :=
  claim_C6_amended (fun _ => [[1], [2], [3]]) (String.toList "SELECT 1") 2
    [[1], [2]] rfl

/-- Counterexample to claim C7: the `QueryLog` record is created directly with
status running (`QueryLog.objects.create(..., status="running")`); it is never
in the `created` state. -/
theorem claim_C7_counterexample :
    (viewPost (.ok fun _ => String.toList "SELECT 1") (String.toList "s")
        (fun _ => .ok []) (String.toList "q") (String.toList "") .json 1000).1 =
      [Status.running, Status.success] ∧
    Status.running ≠ Status.created :=
  ⟨rfl, by decide⟩

/-- Claim C7 (amended): exactly one `QueryLog` is created per request; it is
created in state running (not `created`), and every code path ends it in
exactly one terminal state among success, rejected, error before the response
is returned. -/
theorem claim_C7_amended (gen : Except (List Char) (List Char → List Char))
    (dbSchema : List Char) (dbExec : List Char → Except (List Char) (List (List Nat)))
    (nl_query schema_hint : List Char) (fmt : Fmt) (m : Nat) :
    ∃ t, (viewPost gen dbSchema dbExec nl_query schema_hint fmt m).1 =
        [Status.running, t] ∧
      (t = Status.success ∨ t = Status.rejected ∨ t = Status.error) := by
  cases gen with
  | error e => exact ⟨Status.error, rfl, .inr (.inr rfl)⟩
  | ok g =>
    cases hs : basic_sanitize_and_enforce (nl_to_sql g dbSchema nl_query schema_hint) m with
    | error r =>
      refine ⟨Status.rejected, ?_, .inr (.inl rfl)⟩
      simp only [viewPost]
      rw [hs]
    | ok s =>
      cases he : dbExec s with
      | error e =>
        refine ⟨Status.error, ?_, .inr (.inr rfl)⟩
        simp only [viewPost]
        rw [hs]
        simp only [he]
      | ok rows =>
        cases fmt with
        | json =>
          refine ⟨Status.success, ?_, .inl rfl⟩
          simp only [viewPost]
          rw [hs]
          simp only [he]
        | dataframeCsv =>
          refine ⟨Status.success, ?_, .inl rfl⟩
          simp only [viewPost]
          rw [hs]
          simp only [he]

/-- Claim C8: applying the sanitizer to its own successful output with the same
`max_rows` succeeds and returns that output unchanged. -/
theorem claim_C8_idempotent (sql : List Char) (m : Nat) (out : List Char)
    (h : basic_sanitize_and_enforce sql m = .ok out) :
    basic_sanitize_and_enforce out m = .ok out := by
  obtain ⟨ha, hsys, hblk, hsel, hlim, hstrip, hne⟩ := sanitize_ok_invariants h
  have hne' : ¬(out = [] ∨ stripChars out = []) := by
    rintro (rfl | hh)
    · exact hne rfl
    · rw [hstrip] at hh
      exact hne hh
  have he := sanitize_eval out m hne' (by rw [hstrip]; exact ha)
    (by rw [hstrip]; exact hsys) (by rw [hstrip]; exact hblk)
  rw [he, hstrip]
  rw [if_neg (by
    rintro ⟨hs, hw⟩
    rcases hsel with hx | hx
    · rw [hs] at hx; cases hx
    · rw [hw] at hx; cases hx), if_pos hlim]

/-- Witness for C8: re-sanitizing the sanitized scenario output is the
identity. -/
theorem claim_C8_witness :
    basic_sanitize_and_enforce (String.toList "SELECT * FROM orders LIMIT 50") 50 =
      .ok (String.toList "SELECT * FROM orders LIMIT 50") :=
  claim_C8_idempotent (String.toList "SELECT * FROM orders") 50 _ rfl

/-- Claim C9: two requests identical except in the optional schema field give
identical sanitizer input, identical executed SQL and identical response — the
caller schema is overwritten by `get_schema_context()` inside `nl_to_sql` and
never influences anything. -/
theorem claim_C9_schema_noninterference
    (gen : Except (List Char) (List Char → List Char)) (dbSchema : List Char)
    (dbExec : List Char → Except (List Char) (List (List Nat)))
    (nl_query : List Char) (fmt : Fmt) (m : Nat) (schema1 schema2 : List Char) :
    viewPost gen dbSchema dbExec nl_query schema1 fmt m =
      viewPost gen dbSchema dbExec nl_query schema2 fmt m ∧
    ∀ g : List Char → List Char,
      nl_to_sql g dbSchema nl_query schema1 = nl_to_sql g dbSchema nl_query schema2 :=
  ⟨rfl, fun _ => rfl⟩

/-- Claim C10: `execute_sql` sanitizes with the default `max_rows` of 1000, not
with `row_limit`, so a query lacking a LIMIT clause executes with `LIMIT 1000`
appended even when `row_limit` is smaller; `row_limit` only bounds the rows
fetched from the cursor. -/
theorem claim_C10_execute_sql_default_cap (db : List Char → List (List Nat))
    (sql : List Char) (rl : Nat)
    (h : hasLimit (stripChars sql) = false)
    (s : List Char) (hs : basic_sanitize_and_enforce sql 1000 = .ok s)
    (rows : List (List Nat)) (hr : execute_sql db sql rl = .ok rows) :
    s = stripChars sql ++ (limitSep ++ natDecimal 1000) ∧
    rows = fetchmany (db s) rl := by
  obtain ⟨_, _, _, _, _, hsh⟩ := sanitize_ok_elim hs
  rcases hsh with ⟨hl, _⟩ | ⟨_, hshape⟩
  · rw [h] at hl
    cases hl
  · refine ⟨hshape, ?_⟩
    unfold execute_sql at hr
    rw [hs] at hr
    injection hr with hr
    exact hr.symm

/-- Witness for C10 with `row_limit = 2`: the executed SQL still ends in
`LIMIT 1000`, and only two of the three available rows are fetched. -/
theorem claim_C10_witness :
    String.toList "SELECT 1 LIMIT 1000" =
      stripChars (String.toList "SELECT 1") ++ (limitSep ++ natDecimal 1000) ∧
    ([[1], [2]] : List (List Nat)) =
      fetchmany ((fun _ => [[1], [2], [3]] : List Char → List (List Nat))
        (String.toList "SELECT 1 LIMIT 1000")) 2 :=
  claim_C10_execute_sql_default_cap (fun _ => [[1], [2], [3]])
    (String.toList "SELECT 1") 2 rfl (String.toList "SELECT 1 LIMIT 1000") rfl
    [[1], [2]] rfl

end TextToSql
